import Mathlib

/-!
# Verification of the `QuerySet` core of exchangelib (`src/exchangelib/queryset.py`)

A shallow embedding of the deferred, chainable query builder: the query
specification record, the planner (`_query`), the lazy/cached enumerator
(`__iter__`, `iterator`), indexing/slicing, the chaining operations and the
terminal `delete`.  External collaborators (the restriction type `Q`, field
descriptors, and the folder/account remote interface) are modelled as data
supplied by the environment, exactly at the granularity the source uses them.

Machine conventions: Python `None` becomes `Option.none`; Python tuples and
sets become lists (set operations are modelled order-preserving, which no
verified statement depends on); Python exceptions become `Except` values;
Python's stable `sorted` is modelled by a stable insertion sort.
-/

namespace EWS

/-- The restriction predicate type (external module `restriction.Q`).  Only
the operations the queryset uses are modelled: the empty restriction `Q()`,
AND-combination `&` and negation `~`.  A `pred n` is an opaque leaf predicate
as built by `Q(*args, **kwargs)`. -/
inductive Q where
  | empty : Q
  | pred : Nat → Q
  | and : Q → Q → Q
  | negq : Q → Q
deriving DecidableEq, Repr

/-- A `FieldOrder` (external module `fields.FieldOrder`): a field path plus a
reverse-direction flag. -/
structure FieldOrder where
  field_path : String
  reverse : Bool
deriving DecidableEq, Repr, Inhabited

/-- The four return formats (`VALUES`, `VALUES_LIST`, `FLAT`, `NONE`). -/
inductive RetFormat where
  | values | values_list | flat | none_
deriving DecidableEq, Repr

/-- An item is a record of field values; identity fields `item_id` and
`changekey` are ordinary entries.  A missing entry and an entry set to `none`
both read as Python `None`. -/
abbrev Item := List (String × Option Int)

/-- `FieldPath.get_value` / `getattr`: read a field off an item. -/
def getValue (i : Item) (f : String) : Option Int :=
  (i.lookup f).join

/-- One formatted output value, as produced by the four result formatters. -/
inductive OutVal where
  | item : Item → OutVal
  | vmap : List (String × Option Int) → OutVal
  | vtup : List (Option Int) → OutVal
  | vflat : Option Int → OutVal
deriving DecidableEq, Repr

/-- The keyword arguments of a `folder.find_items` call (`find_item_kwargs`
in `_query`, source lines 94-100). -/
structure FindItemKwargs where
  additional_fields : Option (List String)
  order_fields : Option (List FieldOrder)
  calendar_view : Option Nat
  page_size : Option Nat
  max_items : Option Nat
deriving DecidableEq, Repr

/-- The folder/account collaborator (external; spec section 6 interface).
`find_items` and `fetch` are the remote search/fetch calls; `bulk_delete`
is `folder.account.bulk_delete` and may raise (modelled by `Except`). -/
structure Folder where
  allowed_fields : List String
  complex_fields : List String
  find_items : Option Q → FindItemKwargs → List Item
  fetch : List Item → List String → List Item
  bulk_delete : List OutVal → Except String Nat

/-- The query specification plus result cache: the instance attributes set by
`QuerySet.__init__` (source lines 38-48).  `q = none` is the "match nothing"
sentinel; `cache` is `_cache`. -/
structure QuerySet where
  q : Option Q
  only_fields : Option (List String)
  order_fields : Option (List FieldOrder)
  return_format : RetFormat
  calendar_view : Option Nat
  page_size : Option Nat
  max_items : Option Nat
  cache : Option (List OutVal)
deriving DecidableEq, Repr

/-- A fresh `QuerySet(folder)`: `q = Q()` (the empty restriction, not the
sentinel), everything else unset. -/
def initQS : QuerySet :=
  { q := some Q.empty, only_fields := none, order_fields := none,
    return_format := RetFormat.none_, calendar_view := none,
    page_size := none, max_items := none, cache := none }

/-! ## Python's stable sort

`sorted(items, key=k, reverse=r)` is stable: elements whose keys compare
equal keep their original relative order, for both directions.  We model it
with the classic stable insertion sort: an element is inserted in front of
the first element it compares `le` to, so an earlier element always stays in
front of a later element with an equal key. -/

/-- Insert `x` in front of the first element `y` with `le x y`. -/
def sInsert (le : α → α → Bool) (x : α) : List α → List α
  | [] => [x]
  | y :: ys => if le x y then x :: y :: ys else y :: sInsert le x ys

/-- Stable sort by the boolean comparator `le` (modelling Python `sorted`). -/
def pySorted (le : α → α → Bool) : List α → List α
  | [] => []
  | x :: xs => sInsert le x (pySorted le xs)

/-- Key comparison for sorting, on `Option Int` (Python `None` sorts below
any integer, matching the Python-2 lineage of the source). -/
def keyLe : Option Int → Option Int → Bool
  | none, _ => true
  | some _, none => false
  | some a, some b => a ≤ b

/-- The comparator of one `sorted(items, key=f.field_path.get_value,
reverse=f.reverse)` pass (source line 129).  With `reverse=True` Python
sorts descending but still keeps equal keys in original order, which this
comparator produces under a stable sort. -/
def orderLe (f : FieldOrder) (a b : Item) : Bool :=
  if f.reverse then keyLe (getValue b f.field_path) (getValue a f.field_path)
  else keyLe (getValue a f.field_path) (getValue b f.field_path)

/-- The client-side multi-key sort of `_query` (source lines 128-129): one
stable pass per ordering field, least significant first (`reversed`). -/
def clientSort (ofs : List FieldOrder) (items : List Item) : List Item :=
  ofs.reverse.foldl (fun its f => pySorted (orderLe f) its) items

/-- `clean_item` (source lines 134-137): null out the fields fetched only to
support client-side sorting. -/
def cleanItem (extra : List String) (i : Item) : Item :=
  i.map (fun p => if extra.contains p.1 then (p.1, none) else p)

/-! ## The query planner `_query` (source lines 73-138) -/

/-- The sorting decision of `_query` (source lines 85-92): returns the
`order_fields` passed to the remote call and the `must_sort_clientside`
flag.  Server-side sorting is used unless the calendar view is set
(`if self.calendar_view:`); `bool(self.order_fields)` is false for both
`None` and the empty tuple. -/
def planOrderFields (qs : QuerySet) : Option (List FieldOrder) × Bool :=
  if qs.calendar_view.isSome then (none, !(qs.order_fields.getD []).isEmpty)
  else (qs.order_fields, false)

/-- The full record of one `_query` execution: every remote call with its
arguments, the sorting decision and the produced raw item stream. -/
structure QueryExec where
  findCalls : List (Option Q × FindItemKwargs)
  fetchCalls : List (List Item × List String)
  mustSortClientside : Bool
  results : List Item
deriving DecidableEq, Repr

/-- `QuerySet._query` (source lines 73-138).  `additional_fields` is all the
folder's allowed fields when the projection is unset, else the explicit
projection minus the two identity fields; complex fields force the two-phase
find-then-fetch path; extra fields needed only for client-side sorting are
added to the projection and nulled out again after sorting. -/
def queryExec (F : Folder) (qs : QuerySet) : QueryExec :=
  let afs0 : List String :=
    match qs.only_fields with
    | none => F.allowed_fields
    | some fs => fs.filter (fun n => n ≠ "item_id" ∧ n ≠ "changekey")
  let complexReq : Bool := afs0.any (fun n => F.complex_fields.contains n)
  let p := planOrderFields qs
  let kw0 : FindItemKwargs :=
    { additional_fields := none, order_fields := p.1,
      calendar_view := qs.calendar_view, page_size := qs.page_size,
      max_items := qs.max_items }
  let extraOrder : List String :=
    if p.2 then
      (((qs.order_fields.getD []).map (fun f => f.field_path)).dedup).filter
        (fun n => !(afs0.contains n))
    else []
  let afs := afs0 ++ extraOrder
  let raw : List (Option Q × FindItemKwargs) × List (List Item × List String) × List Item :=
    if complexReq then
      let ids := F.find_items qs.q kw0
      ([(qs.q, kw0)], [(ids, afs)], F.fetch ids afs)
    else
      let kw1 := if afs.isEmpty then kw0
                 else { kw0 with additional_fields := some afs }
      ([(qs.q, kw1)], [], F.find_items qs.q kw1)
  let items := raw.2.2
  let post :=
    if p.2 then
      let sorted := clientSort (qs.order_fields.getD []) items
      if extraOrder.isEmpty then sorted else sorted.map (cleanItem extraOrder)
    else items
  { findCalls := raw.1, fetchCalls := raw.2.1, mustSortClientside := p.2,
    results := post }

/-- Number of remote collaborator calls one plan execution makes. -/
def queryCalls (F : Folder) (qs : QuerySet) : Nat :=
  (queryExec F qs).findCalls.length + (queryExec F qs).fetchCalls.length

/-! ## Result formatters (source lines 222-294)

In identity-fields-only mode `_query` streams `(item_id, changekey)` pairs;
we represent such a pair as an item carrying the two identity fields, so all
formatters consume `List Item`. -/

/-- `_as_items` (source lines 222-240). -/
def asItems (qs : QuerySet) (items : List Item) : List OutVal :=
  match qs.only_fields with
  | some fs =>
    if !fs.isEmpty then
      let hasAdditional := fs.any (fun n => n ≠ "item_id" ∧ n ≠ "changekey")
      if !hasAdditional then
        if !(fs.contains "changekey") then
          items.map (fun i => OutVal.item [("item_id", getValue i "item_id")])
        else if !(fs.contains "item_id") then
          items.map (fun i => OutVal.item [("changekey", getValue i "changekey")])
        else
          items.map (fun i => OutVal.item
            [("item_id", getValue i "item_id"), ("changekey", getValue i "changekey")])
      else items.map OutVal.item
    else items.map OutVal.item
  | none => items.map OutVal.item

/-- `_as_values` (source lines 242-259).  The source asserts non-empty
`only_fields`; the unreachable violating configurations map to `[]` here and
are excluded by `wfFormat` wherever a theorem runs the formatter. -/
def asValues (qs : QuerySet) (items : List Item) : List OutVal :=
  match qs.only_fields with
  | some fs =>
    if fs.isEmpty then []
    else
      let hasAdditional := fs.any (fun n => n ≠ "item_id" ∧ n ≠ "changekey")
      if !hasAdditional then
        if !(fs.contains "changekey") then
          items.map (fun i => OutVal.vmap [("item_id", getValue i "item_id")])
        else if !(fs.contains "item_id") then
          items.map (fun i => OutVal.vmap [("changekey", getValue i "changekey")])
        else
          items.map (fun i => OutVal.vmap
            [("item_id", getValue i "item_id"), ("changekey", getValue i "changekey")])
      else items.map (fun i => OutVal.vmap (fs.map (fun f => (f, getValue i f))))
  | none => []

/-- `_as_values_list` (source lines 261-278); same assertion caveat as
`asValues`. -/
def asValuesList (qs : QuerySet) (items : List Item) : List OutVal :=
  match qs.only_fields with
  | some fs =>
    if fs.isEmpty then []
    else
      let hasAdditional := fs.any (fun n => n ≠ "item_id" ∧ n ≠ "changekey")
      if !hasAdditional then
        if !(fs.contains "changekey") then
          items.map (fun i => OutVal.vtup [getValue i "item_id"])
        else if !(fs.contains "item_id") then
          items.map (fun i => OutVal.vtup [getValue i "changekey"])
        else
          items.map (fun i => OutVal.vtup
            [getValue i "item_id", getValue i "changekey"])
      else items.map (fun i => OutVal.vtup (fs.map (fun f => getValue i f)))
  | none => []

/-- `_as_flat_values_list` (source lines 280-294); the source asserts exactly
one projected field. -/
def asFlatValuesList (qs : QuerySet) (items : List Item) : List OutVal :=
  match qs.only_fields with
  | some [f] => items.map (fun i => OutVal.vflat (getValue i f))
  | _ => []

/-- The spec's format invariant (section 3), matching the formatter
assertions in the source: value formats need a non-empty projection, the
flat format exactly one field. -/
def wfFormat (qs : QuerySet) : Bool :=
  match qs.return_format with
  | RetFormat.none_ => true
  | RetFormat.values => !(qs.only_fields.getD []).isEmpty
  | RetFormat.values_list => !(qs.only_fields.getD []).isEmpty
  | RetFormat.flat => (qs.only_fields.getD []).length == 1

/-- The `result_formatter` dispatch of `__iter__` (source lines 157-162). -/
def resultFormatter (qs : QuerySet) (items : List Item) : List OutVal :=
  match qs.return_format with
  | RetFormat.values => asValues qs items
  | RetFormat.values_list => asValuesList qs items
  | RetFormat.flat => asFlatValuesList qs items
  | RetFormat.none_ => asItems qs items

/-- The planned result stream of one full execution: the formatter applied
to the planner's raw items. -/
def plannedStream (F : Folder) (qs : QuerySet) : List OutVal :=
  resultFormatter qs (queryExec F qs).results

/-! ## The lazy/cached enumerator `__iter__` (source lines 140-166)

`__iter__` is a generator; we model a consumer that calls `next()` up to
`pulls` times (stopping early on `StopIteration`).  The generator body runs
only at the first pull.  The commit `self._cache = _cache` on line 166 runs
during the pull that observes exhaustion, i.e. only when the consumer pulls
strictly more times than there are results. -/

/-- Outcome of consuming a queryset: the values yielded, the post-state of
the object, and how many remote collaborator calls were made. -/
structure IterResult where
  yielded : List OutVal
  post : QuerySet
  remoteCalls : Nat
deriving Repr

/-- `__iter__`, consumed by at most `pulls` calls to `next()`. -/
def iterPulls (F : Folder) (qs : QuerySet) (pulls : Nat) : IterResult :=
  match qs.cache with
  | some c => { yielded := c.take pulls, post := qs, remoteCalls := 0 }
  | none =>
    if pulls = 0 then { yielded := [], post := qs, remoteCalls := 0 }
    else
      match qs.q with
      | none => { yielded := [], post := { qs with cache := some [] }, remoteCalls := 0 }
      | some _ =>
        let rs := plannedStream F qs
        if rs.length < pulls then
          { yielded := rs, post := { qs with cache := some rs },
            remoteCalls := queryCalls F qs }
        else
          { yielded := rs.take pulls, post := qs, remoteCalls := queryCalls F qs }

/-- A complete pass over `__iter__` (e.g. `list(qs)`): pulls until
`StopIteration`. -/
def iterFull (F : Folder) (qs : QuerySet) : IterResult :=
  match qs.cache with
  | some c => { yielded := c, post := qs, remoteCalls := 0 }
  | none =>
    match qs.q with
    | none => { yielded := [], post := { qs with cache := some [] }, remoteCalls := 0 }
    | some _ =>
      let rs := plannedStream F qs
      { yielded := rs, post := { qs with cache := some rs },
        remoteCalls := queryCalls F qs }

/-- The three shapes `iterator()` can return (source lines 398-407): the
literal empty list, the cache, or the raw un-formatted `_query()` stream. -/
inductive IterStream where
  | emptyStream : IterStream
  | cachedStream : List OutVal → IterStream
  | queryStream : List Item → IterStream
deriving DecidableEq, Repr

/-- `QuerySet.iterator` (source lines 398-407): short-circuits the sentinel
before even looking at the cache, serves a set cache, and otherwise sets
`self.page_size` (a mutation of the receiver) and returns the raw plan
stream. -/
def iterator (F : Folder) (qs : QuerySet) (page_size : Option Nat) :
    IterStream × QuerySet × Nat :=
  match qs.q with
  | none => (IterStream.emptyStream, qs, 0)
  | some _ =>
    match qs.cache with
    | some c => (IterStream.cachedStream c, qs, 0)
    | none =>
      let qs1 := { qs with page_size := page_size }
      (IterStream.queryStream (queryExec F qs1).results, qs1, queryCalls F qs1)

/-! ## Chaining operations (source lines 50-71 and 296-391) -/

/-- `QuerySet.copy` (source lines 50-71): builds a fresh `QuerySet(folder)`
and copies over exactly `q`, `only_fields`, `order_fields`, `return_format`
and `calendar_view` (`q` and `order_fields` via `deepcopy`, value copies
here).  `page_size`, `max_items` and `_cache` keep the `__init__` value
`None`. -/
def copyQS (qs : QuerySet) : QuerySet :=
  { q := qs.q, only_fields := qs.only_fields, order_fields := qs.order_fields,
    return_format := qs.return_format, calendar_view := qs.calendar_view,
    page_size := none, max_items := none, cache := none }

/-- `QuerySet.all` (source lines 307-310). -/
def allQS (qs : QuerySet) : QuerySet := copyQS qs

/-- `QuerySet.none` (source lines 312-316): sets the "match nothing"
sentinel. -/
def noneQS (qs : QuerySet) : QuerySet := { copyQS qs with q := none }

/-- `QuerySet.filter` (source lines 318-323): `new_qs.q = q if new_qs.q is
None else new_qs.q & q`. -/
def filterQS (qs : QuerySet) (p : Q) : QuerySet :=
  { copyQS qs with
    q := match qs.q with
         | none => some p
         | some q0 => some (Q.and q0 p) }

/-- `QuerySet.exclude` (source lines 325-330): like `filter` with the
negated predicate `~Q(...)`. -/
def excludeQS (qs : QuerySet) (p : Q) : QuerySet :=
  { copyQS qs with
    q := match qs.q with
         | none => some (Q.negq p)
         | some q0 => some (Q.and q0 (Q.negq p)) }

/-- Modelled from the spec: `FieldPath.from_string` of the external fields
module (not under `src/`).  Spec sections 4.1/7: a projection field name
must resolve against the collection's known fields, else the call fails
(InvalidField / ValueError). -/
def fieldPathFromString (F : Folder) (s : String) : Except String String :=
  if F.allowed_fields.contains s || s == "item_id" || s == "changekey" then
    Except.ok s
  else Except.error ("ValueError: Unknown field " ++ s)

/-- Modelled from the spec: `FieldOrder.from_string` of the external fields
module (not under `src/`).  Per the `order_by` docstring (source lines
343-345), a leading `-` marks descending order; the name must resolve. -/
def fieldOrderFromString (F : Folder) (s : String) : Except String FieldOrder :=
  let rev := s.startsWith "-"
  let name := if rev then s.drop 1 else s
  if F.allowed_fields.contains name then Except.ok { field_path := name, reverse := rev }
  else Except.error ("ValueError: Unknown field " ++ name)

/-- `QuerySet.only` (source lines 332-340): resolve the names; a
`ValueError` is re-raised with an ` in only()` suffix. -/
def onlyQS (F : Folder) (qs : QuerySet) (args : List String) :
    Except String QuerySet :=
  match args.mapM (fieldPathFromString F) with
  | Except.error e => Except.error (e ++ " in only()")
  | Except.ok fs => Except.ok { copyQS qs with only_fields := some fs }

/-- `QuerySet.order_by` (source lines 342-352); same re-raise pattern. -/
def orderByQS (F : Folder) (qs : QuerySet) (args : List String) :
    Except String QuerySet :=
  match args.mapM (fieldOrderFromString F) with
  | Except.error e => Except.error (e ++ " in order_by()")
  | Except.ok fs => Except.ok { copyQS qs with order_fields := some fs }

/-- `QuerySet.reverse` (source lines 354-361): fails (`ValueError`) when no
ordering is set (`if not self.order_fields:` — `None` or the empty tuple),
otherwise flips every direction flag on the copy's ordering. -/
def reverseQS (qs : QuerySet) : Except String QuerySet :=
  if (qs.order_fields.getD []).isEmpty then
    Except.error "ValueError: Reversing only makes sense if there are order_by fields"
  else
    Except.ok { copyQS qs with
      order_fields := some ((qs.order_fields.getD []).map
        (fun f => { f with reverse := !f.reverse })) }

/-- `QuerySet.values` (source lines 363-372). -/
def valuesQS (F : Folder) (qs : QuerySet) (args : List String) :
    Except String QuerySet :=
  match args.mapM (fieldPathFromString F) with
  | Except.error e => Except.error (e ++ " in values()")
  | Except.ok fs =>
    Except.ok { copyQS qs with only_fields := some fs, return_format := RetFormat.values }

/-- `QuerySet.values_list` (source lines 374-391): `flat=True` requires
exactly one field (checked before resolving the names). -/
def valuesListQS (F : Folder) (qs : QuerySet) (args : List String) (flat : Bool) :
    Except String QuerySet :=
  if flat ∧ args.length ≠ 1 then
    Except.error "ValueError: flat=True requires exactly one field name"
  else
    match args.mapM (fieldPathFromString F) with
    | Except.error e => Except.error (e ++ " in values_list()")
    | Except.ok fs =>
      let fmt := if flat then RetFormat.flat else RetFormat.values_list
      Except.ok { copyQS qs with only_fields := some fs, return_format := fmt }

/-! ## Indexing and slicing (source lines 174-220) -/

/-- Modelled from the spec: `FindItem.CHUNKSIZE` of the external services
module (not under `src/`), the remote search service's chunk size — "small
relative to the remote store's chunk size" (spec 4.3).  The source compares
`idx < FindItem.CHUNKSIZE` and, nested, `idx < 100`; the shipped service
chunk size is 100, making the two thresholds coincide. -/
def CHUNKSIZE : Nat := 100

/-- Python list indexing `c[idx]` with negative-index support, used on the
cache (source line 188). -/
def pyListIdx (c : List OutVal) (i : Int) : Except String OutVal :=
  let j : Int := if i < 0 then i + c.length else i
  if 0 ≤ j then
    match c.get? j.toNat with
    | some v => Except.ok v
    | none => Except.error "IndexError"
  else Except.error "IndexError"

/-- The non-negative branch of `_getitem_idx` (source lines 193-203): when
the cache is unset and the index is below the service chunk size, mutate
`self.max_items` (and, below the small-index threshold, `self.page_size`),
then consume `self.__iter__()` until position `idx` — `idx + 1` pulls; the
loop abandons the generator once the index is reached, and exhausts it
(committing the cache) only when the stream is too short, after which
`IndexError` is raised. -/
def getitemNonneg (F : Folder) (qs : QuerySet) (idx : Nat) :
    Except String OutVal × QuerySet :=
  let qs1 :=
    if qs.cache = none ∧ idx < CHUNKSIZE then
      let qsA := if idx < 100 then { qs with page_size := some (idx + 1) } else qs
      { qsA with max_items := some (idx + 1) }
    else qs
  let r := iterPulls F qs1 (idx + 1)
  match r.yielded.get? idx with
  | some v => (Except.ok v, r.post)
  | none => (Except.error "IndexError", r.post)

/-- `_getitem_idx` (source lines 184-203): a set cache answers directly
(with Python list semantics); a negative index reverses the queryset
(`self.reverse()`, which raises `ValueError` without ordering) and indexes
the reversed copy at `-(idx+1)`; otherwise the non-negative path runs. -/
def getitemIdx (F : Folder) (qs : QuerySet) (idx : Int) :
    Except String OutVal × QuerySet :=
  match qs.cache with
  | some c => (pyListIdx c idx, qs)
  | none =>
    if idx < 0 then
      match reverseQS qs with
      | Except.error e => (Except.error e, qs)
      | Except.ok rqs => ((getitemNonneg F rqs (-(idx + 1)).toNat).1, qs)
    else getitemNonneg F qs idx.toNat

/-- CPython's slice-index normalization (`slice.indices`): the positions a
slice `[start:stop:step]` selects from a list of length `len`. -/
def sliceIndices (len : Int) (start stop step : Option Int) : List Int :=
  let st := step.getD 1
  if st = 0 then []
  else if 0 < st then
    let lo := match start with
              | none => 0
              | some s => if s < 0 then max (s + len) 0 else min s len
    let hi := match stop with
              | none => len
              | some s => if s < 0 then max (s + len) 0 else min s len
    (List.range (hi - lo).toNat).filterMap
      (fun k => if (k : Int) % st = 0 then some (lo + k) else none)
  else
    let lo := match start with
              | none => len - 1
              | some s => if s < 0 then max (s + len) (-1) else min s (len - 1)
    let hi := match stop with
              | none => -1
              | some s => if s < 0 then max (s + len) (-1) else min s (len - 1)
    (List.range (lo - hi).toNat).filterMap
      (fun k => if (k : Int) % (-st) = 0 then some (lo - k) else none)

/-- Python list slicing `c[s]` (used on the cache, source line 212). -/
def pySliceList (c : List OutVal) (start stop step : Option Int) :
    Except String (List OutVal) :=
  if step = some 0 then Except.error "ValueError: slice step cannot be zero"
  else Except.ok ((sliceIndices c.length start stop step).filterMap
    (fun i => c.get? i.toNat))

/-- Every `step`-th element, starting with the first (`itertools.islice`'s
selection after the initial `drop start`). -/
def takeEvery (st : Nat) (l : List α) : List α :=
  l.enum.filterMap (fun p => if p.1 % st = 0 then some p.2 else none)

/-- `_getitem_slice` (source lines 205-220).  Any negative bound forces a
full pass (`list(self.__iter__())`, committing the cache) and slices the
cache.  Otherwise, with the cache unset and a small bounded stop, the
receiver's `page_size`/`max_items` are mutated to `s.stop`, and a lazy
`islice` over `__iter__` is returned; draining that `islice` pulls at most
`stop` times (all of the stream when `stop` is `None`).  The returned state
is the receiver as the method returns it, before the caller drains the
slice. -/
def getitemSlice (F : Folder) (qs : QuerySet) (start stop step : Option Int) :
    Except String (List OutVal) × QuerySet :=
  if start.getD 0 < 0 ∨ stop.getD 0 < 0 ∨ step.getD 0 < 0 then
    let r := iterFull F qs
    (pySliceList (r.post.cache.getD []) start stop step, r.post)
  else
    let qs1 :=
      match qs.cache, stop with
      | none, some s =>
        if s < (CHUNKSIZE : Int) then
          let qsA := if s < 100 then { qs with page_size := some s.toNat } else qs
          { qsA with max_items := some s.toNat }
        else qs
      | _, _ => qs
    if step.getD 1 = 0 then
      (Except.error "ValueError: Step for islice must be a positive integer or None", qs1)
    else
      let consumed := match stop with
                      | some s => iterPulls F qs1 s.toNat
                      | none => iterFull F qs1
      let sel := takeEvery (step.getD 1).toNat (consumed.yielded.drop (start.getD 0).toNat)
      (Except.ok sel, qs1)

/-! ## The terminal `delete` (source lines 446-459) -/

/-- `QuerySet.delete`.  With a set cache: `bulk_delete(ids=self._cache)` and
then `self._cache = None` — but that assignment is the statement *after* the
call, so a raised failure propagates with the cache still set (there is no
`try`/`finally`).  With no cache: an identity-only, unordered copy is built
and its (lazily consumed) stream is handed to `bulk_delete`. -/
def deleteQS (F : Folder) (qs : QuerySet) (page_size : Nat) :
    Except String Nat × QuerySet :=
  match qs.cache with
  | some c =>
    match F.bulk_delete c with
    | Except.ok r => (Except.ok r, { qs with cache := none })
    | Except.error e => (Except.error e, qs)
  | none =>
    let base := copyQS qs
    let new_qs : QuerySet :=
      { base with
        only_fields := some ([] : List String)
        order_fields := none
        return_format := RetFormat.none_
        page_size := some page_size }
    (F.bulk_delete (iterFull F new_qs).yielded, qs)

/-! ## Aliasing model of `copy`/`reverse` (source lines 50-71, 354-361)

`reverse()` mutates the direction flags *in place* on the copy's
`FieldOrder` objects.  The receiver stays intact only because `copy()` runs
`deepcopy(self.order_fields)`.  To verify that, this model makes the
aliasing explicit: `FieldOrder` objects live in a store and `order_fields`
holds references into it.  All other specification fields are plain values
(nothing else is mutated in place by the chaining operations). -/

/-- The store of live `FieldOrder` objects; a reference is an index. -/
structure OrdStore where
  objs : List FieldOrder
deriving DecidableEq, Repr

/-- Dereference. -/
def OrdStore.read (st : OrdStore) (r : Nat) : FieldOrder :=
  st.objs.getD r default

/-- In-place update of one object. -/
def OrdStore.write (st : OrdStore) (r : Nat) (o : FieldOrder) : OrdStore :=
  ⟨st.objs.set r o⟩

/-- Allocate fresh objects with the given values; returns their
references. -/
def OrdStore.allocList (st : OrdStore) (os : List FieldOrder) : OrdStore × List Nat :=
  (⟨st.objs ++ os⟩, List.range' st.objs.length os.length)

/-- The `deepcopy(self.order_fields)` step of `copy()` in the aliasing
model: fresh objects are allocated with the receiver's values, so the copy's
references are disjoint from every live reference into `st`. -/
def copyOrderAlias (st : OrdStore) (refs : Option (List Nat)) :
    OrdStore × Option (List Nat) :=
  match refs with
  | none => (st, none)
  | some rs =>
    let p := st.allocList (rs.map st.read)
    (p.1, some p.2)

/-- One in-place flag flip, `f.reverse = not f.reverse` (source line 360). -/
def flipAt (s : OrdStore) (r : Nat) : OrdStore :=
  let o := s.read r
  s.write r { o with reverse := !o.reverse }

/-- `reverse()` in the aliasing model: after the `deepcopy`, each of the
copy's `FieldOrder` objects gets `f.reverse = not f.reverse` in place. -/
def reverseAlias (st : OrdStore) (refs : Option (List Nat)) :
    Except String (OrdStore × List Nat) :=
  if (refs.getD []).isEmpty then
    Except.error "ValueError: Reversing only makes sense if there are order_by fields"
  else
    let p := copyOrderAlias st refs
    let rs' := (p.2).getD []
    Except.ok (rs'.foldl flipAt p.1, rs')

/-! ## Environment hypotheses and concrete fixtures -/

/-- The remote collaborator honors the paging *hints*: a `max_items` bound
caps how many results a search returns, and a fetch returns at most one item
per requested id. -/
def HonorsHints (F : Folder) : Prop :=
  (∀ q kw m, kw.max_items = some m → (F.find_items q kw).length ≤ m) ∧
  (∀ ids flds, (F.fetch ids flds).length ≤ ids.length)

/-- Fixture items of the spec's sorting example. -/
def itemA12 : Item := [("a", some 1), ("b", some 2)]

def itemA11 : Item := [("a", some 1), ("b", some 1)]

def itemA21 : Item := [("a", some 2), ("b", some 1)]

/-- A concrete folder over fields `a`, `b` holding the three example items;
it honors the `max_items` hint by truncation. -/
def Fex : Folder :=
  { allowed_fields := ["a", "b"]
    complex_fields := []
    find_items := fun _ kw => [itemA12, itemA11, itemA21].take (kw.max_items.getD 3)
    fetch := fun ids _ => ids
    bulk_delete := fun l => Except.ok l.length }

/-- `Fex` with a `bulk_delete` that raises. -/
def FexErr : Folder := { Fex with bulk_delete := fun _ => Except.error "ErrorDeleted" }

/-- Calendar view set, two-field ordering: the client-side sorting
configuration. -/
def qsCal2 : QuerySet :=
  { initQS with calendar_view := some 0, order_fields := some [⟨"a", false⟩, ⟨"b", false⟩] }

/-- No calendar view, two-field ordering. -/
def qsSrv2 : QuerySet :=
  { initQS with order_fields := some [⟨"a", false⟩, ⟨"b", false⟩] }

/-- Single ascending ordering field. -/
def qsOrd1 : QuerySet := { initQS with order_fields := some [⟨"a", false⟩] }

/-- The reversed-ordering copy of `qsOrd1`. -/
def rqsOrd1 : QuerySet := { initQS with order_fields := some [⟨"a", true⟩] }

/-- A queryset with every specification field set and a filled cache. -/
def qsFull : QuerySet :=
  { q := some (Q.pred 1), only_fields := some ["a"], order_fields := some [⟨"a", true⟩],
    return_format := RetFormat.values, calendar_view := some 3,
    page_size := some 5, max_items := some 7, cache := some [OutVal.vflat (some 0)] }

/-- A queryset whose cache is set to one item. -/
def qsCached : QuerySet := { initQS with cache := some [OutVal.item itemA11] }

/-! # Claim theorems -/

/-- C1 counterexample: on a queryset whose restriction is the "match
nothing" sentinel, `filter` (and `exclude`) does *not* keep the sentinel —
`new_qs.q = q if new_qs.q is None else new_qs.q & q` replaces `None` by the
fresh predicate. -/
theorem C1_sentinel_not_absorbing :
    (filterQS (noneQS initQS) (Q.pred 0)).q ≠ none ∧
    (excludeQS (noneQS initQS) (Q.pred 0)).q ≠ none := by
  decide

/-- C1 amended: `filter(predicate)` on a sentinel-restriction queryset
*replaces* the sentinel with the given predicate, and `exclude(predicate)`
replaces it with the negated predicate; the sentinel does not absorb the
AND-combination. -/
theorem C1_sentinel_replaced (qs : QuerySet) (p : Q) (h : qs.q = none) :
    (filterQS qs p).q = some p ∧ (excludeQS qs p).q = some (Q.negq p) := by
  simp [filterQS, excludeQS, h]

/-- C1 witness: the amended statement at a concrete sentinel queryset. -/
theorem C1_sentinel_replaced_witness :
    (filterQS (noneQS initQS) (Q.pred 3)).q = some (Q.pred 3) ∧
    (excludeQS (noneQS initQS) (Q.pred 3)).q = some (Q.negq (Q.pred 3)) :=
  C1_sentinel_replaced (noneQS initQS) (Q.pred 3) rfl

/-- C2 counterexample: with two ordering fields and no calendar view, the
planner does *not* withhold the ordering from the remote call and does not
sort client-side — `_query` passes multi-field orderings server-side
(source lines 85-92). -/
theorem C2_multifield_server_sorted :
    (queryExec Fex qsSrv2).mustSortClientside = false ∧
    (queryExec Fex qsSrv2).findCalls.map (fun c => c.2.order_fields) =
      [some [⟨"a", false⟩, ⟨"b", false⟩]] := by
  decide

/-- C2 amended: the planner withholds the ordering from the remote find
call and sorts client-side exactly when the special-view (calendar view)
marker is set while the ordering is non-empty; a multi-field ordering alone
is passed to the remote call. -/
theorem C2_calendar_view_clientside (F : Folder) (qs : QuerySet)
    (hcv : qs.calendar_view.isSome = true)
    (hof : (qs.order_fields.getD []).isEmpty = false) :
    (queryExec F qs).mustSortClientside = true ∧
    ∀ c ∈ (queryExec F qs).findCalls, c.2.order_fields = none := by
  constructor
  · simp [queryExec, planOrderFields, hcv, hof]
  · intro c hc
    simp only [queryExec, planOrderFields, hcv, if_pos, hof] at hc
    split at hc <;> simp at hc <;> subst hc
    · rfl
    · split <;> rfl

/-- C2 witness: the amended statement at the concrete calendar-view
queryset. -/
theorem C2_calendar_view_clientside_witness :
    (queryExec Fex qsCal2).mustSortClientside = true ∧
    ∀ c ∈ (queryExec Fex qsCal2).findCalls, c.2.order_fields = none :=
  C2_calendar_view_clientside Fex qsCal2 rfl rfl

/-- C5 counterexample: `copy()` does not carry the paging hints — on a
receiver with `page_size = 5`, `filter` returns an object whose page-size
hint is reset to unset, not equal to the receiver's. -/
theorem C5_hints_not_carried :
    (filterQS qsFull (Q.pred 0)).page_size ≠ qsFull.page_size := by
  decide

/-- C5 amended: every chaining operation returns `copy()` of the receiver
with only its targeted field(s) changed, where `copy()` carries restriction,
projection, ordering, return format and the calendar-view marker but always
resets `page_size`, `max_items` and the cache to unset. -/
theorem C5_chain_copies_spec (F : Folder) (qs : QuerySet) (p : Q)
    (args : List String) :
    ((copyQS qs).q = qs.q ∧ (copyQS qs).only_fields = qs.only_fields ∧
      (copyQS qs).order_fields = qs.order_fields ∧
      (copyQS qs).return_format = qs.return_format ∧
      (copyQS qs).calendar_view = qs.calendar_view ∧
      (copyQS qs).page_size = none ∧ (copyQS qs).max_items = none ∧
      (copyQS qs).cache = none) ∧
    allQS qs = copyQS qs ∧
    noneQS qs = { copyQS qs with q := none } ∧
    (∃ v, filterQS qs p = { copyQS qs with q := some v }) ∧
    (∃ v, excludeQS qs p = { copyQS qs with q := some v }) ∧
    (∀ qs', onlyQS F qs args = Except.ok qs' →
      ∃ v, qs' = { copyQS qs with only_fields := some v }) ∧
    (∀ qs', orderByQS F qs args = Except.ok qs' →
      ∃ v, qs' = { copyQS qs with order_fields := some v }) ∧
    (∀ qs', reverseQS qs = Except.ok qs' →
      ∃ v, qs' = { copyQS qs with order_fields := some v }) ∧
    (∀ qs', valuesQS F qs args = Except.ok qs' →
      ∃ v, qs' = { copyQS qs with only_fields := some v, return_format := RetFormat.values }) ∧
    (∀ qs' flat, valuesListQS F qs args flat = Except.ok qs' →
      ∃ v fmt, qs' = { copyQS qs with only_fields := some v, return_format := fmt }) := by
  refine ⟨⟨rfl, rfl, rfl, rfl, rfl, rfl, rfl, rfl⟩, rfl, rfl, ?_, ?_, ?_, ?_, ?_, ?_, ?_⟩
  · cases hq : qs.q with
    | none => exact ⟨p, by simp [filterQS, hq]⟩
    | some q0 => exact ⟨Q.and q0 p, by simp [filterQS, hq]⟩
  · cases hq : qs.q with
    | none => exact ⟨Q.negq p, by simp [excludeQS, hq]⟩
    | some q0 => exact ⟨Q.and q0 (Q.negq p), by simp [excludeQS, hq]⟩
  · intro qs' h
    unfold onlyQS at h
    cases hm : args.mapM (fieldPathFromString F) with
    | error e => rw [hm] at h; cases h
    | ok fs => rw [hm] at h; cases h; exact ⟨fs, rfl⟩
  · intro qs' h
    unfold orderByQS at h
    cases hm : args.mapM (fieldOrderFromString F) with
    | error e => rw [hm] at h; cases h
    | ok fs => rw [hm] at h; cases h; exact ⟨fs, rfl⟩
  · intro qs' h
    unfold reverseQS at h
    split at h
    · cases h
    · cases h; exact ⟨_, rfl⟩
  · intro qs' h
    unfold valuesQS at h
    cases hm : args.mapM (fieldPathFromString F) with
    | error e => rw [hm] at h; cases h
    | ok fs => rw [hm] at h; cases h; exact ⟨fs, rfl⟩
  · intro qs' flat h
    unfold valuesListQS at h
    split at h
    · cases h
    · cases hm : args.mapM (fieldPathFromString F) with
      | error e => rw [hm] at h; cases h
      | ok fs => rw [hm] at h; cases h; exact ⟨fs, _, rfl⟩

/-- C5 witness: the amended statement applied at a fully populated
receiver, discharging a success premise for each fallible operation. -/
theorem C5_chain_copies_spec_witness :
    noneQS qsFull = { copyQS qsFull with q := none } ∧
    (∃ v, ({ copyQS qsFull with only_fields := some ["b"] } : QuerySet) =
      { copyQS qsFull with only_fields := some v }) ∧
    (∃ v, ({ copyQS qsFull with order_fields := some [⟨"a", false⟩] } : QuerySet) =
      { copyQS qsFull with order_fields := some v }) ∧
    (∃ v fmt, ({ copyQS qsFull with only_fields := some ["b"], return_format := RetFormat.values_list } : QuerySet) =
      { copyQS qsFull with only_fields := some v, return_format := fmt }) := by
  have h := C5_chain_copies_spec Fex qsFull (Q.pred 2) ["b"]
  exact ⟨h.2.2.1, h.2.2.2.2.2.1 _ rfl, h.2.2.2.2.2.2.2.1 _ rfl,
    h.2.2.2.2.2.2.2.2.2 _ false rfl⟩

/-- C7 counterexample: when the collaborator's bulk-delete raises, the
statement `self._cache = None` after the call never runs, so the cache is
*not* invalidated. -/
theorem C7_cache_kept_on_raise :
    (deleteQS FexErr qsCached 1000).2.cache ≠ none := by
  decide

/-- C7 amended: `delete()` on a cache-set queryset invalidates the cache
whenever the bulk-delete call returns normally (whatever its result value),
but a raised failure propagates unchanged and leaves the cache set. -/
theorem C7_delete_invalidates_on_return (F : Folder) (qs : QuerySet)
    (c : List OutVal) (ps : Nat) (hc : qs.cache = some c) :
    (∀ r, F.bulk_delete c = Except.ok r →
      (deleteQS F qs ps).1 = Except.ok r ∧ (deleteQS F qs ps).2.cache = none) ∧
    (∀ e, F.bulk_delete c = Except.error e →
      (deleteQS F qs ps).1 = Except.error e ∧ (deleteQS F qs ps).2 = qs) := by
  simp only [deleteQS, hc]
  constructor
  · intro r hr; rw [hr]; exact ⟨rfl, rfl⟩
  · intro e he; rw [he]; exact ⟨rfl, rfl⟩

/-- C7 witness: a successful delete clears the concrete cache; a raising
delete propagates its error. -/
theorem C7_delete_invalidates_on_return_witness :
    (deleteQS Fex qsCached 1000).2.cache = none ∧
    (deleteQS FexErr qsCached 1000).1 = Except.error "ErrorDeleted" := by
  have h1 := C7_delete_invalidates_on_return Fex qsCached [OutVal.item itemA11] 1000 rfl
  have h2 := C7_delete_invalidates_on_return FexErr qsCached [OutVal.item itemA11] 1000 rfl
  exact ⟨(h1.1 1 rfl).2, (h2.2 "ErrorDeleted" rfl).1⟩

/-- C8: with client-side sorting in force (calendar view set, ordering
`[a asc, b asc]`), the planner applies one stable pass per ordering field in
reverse priority order; on the spec's example stream
`(a=1,b=2), (a=1,b=1), (a=2,b=1)` the output order is
`(a=1,b=1), (a=1,b=2), (a=2,b=1)`, and it equals the fold of stable
single-key passes. -/
theorem C8_clientside_stable_multisort :
    (queryExec Fex qsCal2).mustSortClientside = true ∧
    (queryExec Fex qsCal2).results = [itemA11, itemA12, itemA21] ∧
    (queryExec Fex qsCal2).results =
      clientSort [⟨"a", false⟩, ⟨"b", false⟩] [itemA12, itemA11, itemA21] := by
  decide

/-- C3: the cache transitions unset → set at most once, and only on a
complete pass.  (a) A set cache serves consumption unchanged with zero
remote calls; (b) a consumer that stops at or before the last planned
result (the commit statement runs only on the pull that observes
exhaustion) leaves the cache unset; (c) a consumer that pulls past the end
commits exactly the full planned stream. -/
theorem C3_cache_commit_protocol (F : Folder) (qs : QuerySet) (pulls : Nat) :
    (∀ c, qs.cache = some c →
      iterPulls F qs pulls = ⟨c.take pulls, qs, 0⟩) ∧
    (qs.cache = none → qs.q ≠ none → pulls ≤ (plannedStream F qs).length →
      (iterPulls F qs pulls).post.cache = none) ∧
    (qs.cache = none → qs.q ≠ none → wfFormat qs = true →
      (plannedStream F qs).length < pulls →
      (iterPulls F qs pulls).post.cache = some (plannedStream F qs)) := by
  refine ⟨?_, ?_, ?_⟩
  · intro c hc
    simp only [iterPulls, hc]
  · intro h0 hq hle
    rcases Option.ne_none_iff_exists'.mp hq with ⟨q0, hq0⟩
    simp only [iterPulls, h0, hq0]
    split
    · exact h0
    · rw [if_neg (Nat.not_lt.mpr hle)]
      exact h0
  · intro h0 hq _ hlt
    rcases Option.ne_none_iff_exists'.mp hq with ⟨q0, hq0⟩
    simp only [iterPulls, h0, hq0]
    rw [if_neg (by omega : ¬pulls = 0), if_pos hlt]

/-- C3 witness: serving one element from a set cache changes nothing; an
abandoned two-of-three pass leaves the cache unset; a complete pass commits
the full planned stream. -/
theorem C3_cache_commit_protocol_witness :
    iterPulls Fex qsCached 1 = ⟨[OutVal.item itemA11], qsCached, 0⟩ ∧
    (iterPulls Fex qsCal2 2).post.cache = none ∧
    (iterPulls Fex qsCal2 4).post.cache = some (plannedStream Fex qsCal2) := by
  have h1 := C3_cache_commit_protocol Fex qsCached 1
  have h2 := C3_cache_commit_protocol Fex qsCal2 2
  have h3 := C3_cache_commit_protocol Fex qsCal2 4
  exact ⟨h1.1 _ rfl, h2.2.1 rfl (by decide) (by decide),
    h3.2.2 rfl (by decide) rfl (by decide)⟩

/-- C4: with the "match nothing" sentinel as restriction, any consumption
yields an empty result with zero remote calls; iteration (from the first
pull on) immediately sets the cache to the empty sequence, and `iterator()`
returns the literal empty list without touching the receiver. -/
theorem C4_sentinel_empty_zero_calls (F : Folder) (qs : QuerySet)
    (pulls : Nat) (ps : Option Nat) (hq : qs.q = none) :
    (qs.cache = none → 1 ≤ pulls →
      iterPulls F qs pulls = ⟨[], { qs with cache := some [] }, 0⟩) ∧
    (qs.cache = none →
      iterFull F qs = ⟨[], { qs with cache := some [] }, 0⟩) ∧
    iterator F qs ps = (IterStream.emptyStream, qs, 0) := by
  refine ⟨?_, ?_, ?_⟩
  · intro h0 hp
    simp only [iterPulls, h0, hq]
    rw [if_neg (by omega : ¬pulls = 0)]
  · intro h0
    simp only [iterFull, h0, hq]
  · simp only [iterator, hq]

/-- C4 witness: the sentinel queryset consumed concretely. -/
theorem C4_sentinel_empty_zero_calls_witness :
    iterPulls Fex (noneQS initQS) 5 = ⟨[], { noneQS initQS with cache := some [] }, 0⟩ ∧
    iterator Fex (noneQS initQS) (some 7) = (IterStream.emptyStream, noneQS initQS, 0) := by
  have h := C4_sentinel_empty_zero_calls Fex (noneQS initQS) 5 (some 7) rfl
  exact ⟨h.1 rfl (by omega), h.2.2⟩

/-- C9: on a cache-unset queryset, a negative index requires a non-empty
ordering — otherwise `self.reverse()` raises the no-ordering `ValueError`
(the spec's InvalidOperation) — and with ordering it returns exactly what
indexing the reversed-ordering copy at `-(i+1)` returns, never mutating the
receiver. -/
theorem C9_negative_index (F : Folder) (qs : QuerySet) (i : Int)
    (h0 : qs.cache = none) (hneg : i < 0) :
    ((qs.order_fields.getD []).isEmpty = true →
      (getitemIdx F qs i).1 =
        Except.error "ValueError: Reversing only makes sense if there are order_by fields" ∧
      (getitemIdx F qs i).2 = qs) ∧
    (∀ rqs, reverseQS qs = Except.ok rqs →
      (getitemIdx F qs i).1 = (getitemIdx F rqs (-(i + 1))).1 ∧
      (getitemIdx F qs i).2 = qs) := by
  constructor
  · intro he
    have hrev : reverseQS qs =
        Except.error "ValueError: Reversing only makes sense if there are order_by fields" := by
      simp [reverseQS, he]
    simp only [getitemIdx, h0]
    rw [if_pos hneg, hrev]
    exact ⟨rfl, rfl⟩
  · intro rqs hr
    have hrc : rqs.cache = none := by
      unfold reverseQS at hr
      split at hr
      · cases hr
      · cases hr; rfl
    constructor
    · simp only [getitemIdx, h0, hrc]
      rw [if_pos hneg, hr, if_neg (by omega : ¬-(i + 1) < 0)]
    · simp only [getitemIdx, h0]
      rw [if_pos hneg, hr]

/-- C9 witness: `qs[-1]` with ordering `[a asc]` equals the reversed copy's
`[0]`; without ordering the call fails with the no-ordering error. -/
theorem C9_negative_index_witness :
    (getitemIdx Fex qsOrd1 (-1)).1 = (getitemIdx Fex rqsOrd1 (-(-1 + 1))).1 ∧
    (getitemIdx Fex initQS (-1)).1 =
      Except.error "ValueError: Reversing only makes sense if there are order_by fields" := by
  have h1 := C9_negative_index Fex qsOrd1 (-1) rfl (by decide)
  have h2 := C9_negative_index Fex initQS (-1) rfl (by decide)
  exact ⟨(h1.2 rqsOrd1 rfl).1, (h2.1 rfl).1⟩

/-! Helper lemmas for C10: all post-processing steps preserve or reduce
stream length, so a honored `max_items` hint bounds the final stream. -/

theorem length_sInsert (le : α → α → Bool) (x : α) (l : List α) :
    (sInsert le x l).length = l.length + 1 := by
  induction l with
  | nil => rfl
  | cons y ys ih => simp only [sInsert]; split <;> simp [ih]

theorem length_pySorted (le : α → α → Bool) (l : List α) :
    (pySorted le l).length = l.length := by
  induction l with
  | nil => rfl
  | cons x xs ih => simp [pySorted, length_sInsert, ih]

theorem length_foldl_sort (fs : List FieldOrder) (items : List Item) :
    (fs.foldl (fun its f => pySorted (orderLe f) its) items).length = items.length := by
  induction fs generalizing items with
  | nil => rfl
  | cons f fs ih => simp only [List.foldl]; rw [ih, length_pySorted]

theorem length_clientSort (ofs : List FieldOrder) (items : List Item) :
    (clientSort ofs items).length = items.length :=
  length_foldl_sort _ _

theorem queryExec_results_length_le (F : Folder) (qs : QuerySet) (m : Nat)
    (hh : HonorsHints F) (hm : qs.max_items = some m) :
    (queryExec F qs).results.length ≤ m := by
  simp only [queryExec]
  repeat' split
  all_goals simp only [List.length_map, length_clientSort]
  all_goals first
    | exact le_trans (hh.2 _ _) (hh.1 _ _ m hm)
    | exact hh.1 _ _ m hm

theorem resultFormatter_length_le (qs : QuerySet) (items : List Item) :
    (resultFormatter qs items).length ≤ items.length := by
  unfold resultFormatter asItems asValues asValuesList asFlatValuesList
  repeat' split
  all_goals simp [apply_ite List.length, List.length_map]

theorem plannedStream_length_le (F : Folder) (qs : QuerySet) (m : Nat)
    (hh : HonorsHints F) (hm : qs.max_items = some m) :
    (plannedStream F qs).length ≤ m :=
  le_trans (resultFormatter_length_le qs _) (queryExec_results_length_le F qs m hh hm)

theorem iterPulls_yielded_length_le (F : Folder) (qs : QuerySet) (pulls : Nat) :
    (iterPulls F qs pulls).yielded.length ≤ pulls := by
  simp only [iterPulls]
  split
  · exact List.length_take_le _ _
  · split
    · simp
    · split
      · simp
      · split
        · simp only []; omega
        · exact List.length_take_le _ _

theorem iterPulls_post_or (F : Folder) (qs : QuerySet) (pulls : Nat) :
    (iterPulls F qs pulls).post = qs ∨
    (iterPulls F qs pulls).post =
      { qs with cache := some (iterPulls F qs pulls).yielded } := by
  simp only [iterPulls]
  split
  · left; rfl
  · split
    · left; rfl
    · split
      · right; rfl
      · split
        · right; rfl
        · left; rfl

theorem queryExec_cache_irrel (F : Folder) (qs : QuerySet) (c : Option (List OutVal)) :
    queryExec F { qs with cache := c } = queryExec F qs := rfl

theorem plannedStream_cache_irrel (F : Folder) (qs : QuerySet) (c : Option (List OutVal)) :
    plannedStream F { qs with cache := c } = plannedStream F qs := rfl

theorem queryExec_findCalls_hints (F : Folder) (qs : QuerySet) :
    ∃ q0 kw, (queryExec F qs).findCalls = [(q0, kw)] ∧
      kw.page_size = qs.page_size ∧ kw.max_items = qs.max_items := by
  simp only [queryExec]
  repeat' split
  all_goals exact ⟨_, _, rfl, rfl, rfl⟩

theorem getitemNonneg_post (F : Folder) (qs : QuerySet) (i : Nat)
    (h0 : qs.cache = none) (hi : i < 100) :
    (getitemNonneg F qs i).2 =
      (iterPulls F { qs with page_size := some (i + 1), max_items := some (i + 1) }
        (i + 1)).post := by
  simp only [getitemNonneg]
  rw [if_pos ⟨h0, by simpa [CHUNKSIZE] using hi⟩, if_pos hi]
  split <;> rfl

/-- C10: indexing a cache-unset queryset at a small non-negative `i`
mutates the receiver itself: `page_size` and `max_items` become `i+1`
(`i < 100 = FindItem.CHUNKSIZE` makes both threshold tests true); slicing
with a small bounded stop sets both hints to the stop.  A later full
iteration of the same object issues its single remote find call carrying
those hints, and if the collaborator honors them the iteration yields at
most `i+1` results. -/
theorem C10_small_index_mutates_hints (F : Folder) (qs : QuerySet) (i s : Nat)
    (h0 : qs.cache = none) (hi : i < 100) (hs : s < 100) :
    ((getitemIdx F qs (i : Int)).2.page_size = some (i + 1) ∧
     (getitemIdx F qs (i : Int)).2.max_items = some (i + 1)) ∧
    (∃ q0 kw, (queryExec F (getitemIdx F qs (i : Int)).2).findCalls = [(q0, kw)] ∧
      kw.page_size = some (i + 1) ∧ kw.max_items = some (i + 1)) ∧
    (HonorsHints F →
      (iterFull F (getitemIdx F qs (i : Int)).2).yielded.length ≤ i + 1) ∧
    ((getitemSlice F qs none (some (s : Int)) none).2.page_size = some s ∧
     (getitemSlice F qs none (some (s : Int)) none).2.max_items = some s) := by
  have hqs1 : (getitemIdx F qs (i : Int)).2 =
      (iterPulls F { qs with page_size := some (i + 1), max_items := some (i + 1) }
        (i + 1)).post := by
    have h1 : getitemIdx F qs (i : Int) = getitemNonneg F qs i := by
      simp only [getitemIdx, h0]
      rw [if_neg (by omega : ¬(i : Int) < 0)]
      norm_num
    rw [h1, getitemNonneg_post F qs i h0 hi]
  refine ⟨?_, ?_, ?_, ?_⟩
  · rw [hqs1]
    rcases iterPulls_post_or F
        { qs with page_size := some (i + 1), max_items := some (i + 1) } (i + 1) with h | h <;>
      rw [h] <;> exact ⟨rfl, rfl⟩
  · rw [hqs1]
    have hqe : queryExec F (iterPulls F
        { qs with page_size := some (i + 1), max_items := some (i + 1) } (i + 1)).post =
        queryExec F { qs with page_size := some (i + 1), max_items := some (i + 1) } := by
      rcases iterPulls_post_or F
          { qs with page_size := some (i + 1), max_items := some (i + 1) } (i + 1) with h | h <;>
        rw [h]
      rfl
    rw [hqe]
    obtain ⟨q0, kw, hfc, hp, hm⟩ := queryExec_findCalls_hints F
      { qs with page_size := some (i + 1), max_items := some (i + 1) }
    exact ⟨q0, kw, hfc, hp, hm⟩
  · intro hh
    rw [hqs1]
    rcases iterPulls_post_or F
        { qs with page_size := some (i + 1), max_items := some (i + 1) } (i + 1) with h | h <;>
      rw [h]
    · simp only [iterFull, h0]
      rcases hq : qs.q with _ | q0
      · simp
      · exact plannedStream_length_le F _ (i + 1) hh rfl
    · simp only [iterFull]
      exact iterPulls_yielded_length_le F _ (i + 1)
  · have hpost : (getitemSlice F qs none (some (s : Int)) none).2 =
        { qs with page_size := some s, max_items := some s } := by
      simp only [getitemSlice, h0]
      rw [if_neg (by simp : ¬((none : Option Int).getD 0 < 0 ∨
        ((some ((s : Nat) : Int)) : Option Int).getD 0 < 0 ∨ (none : Option Int).getD 0 < 0))]
      rw [if_pos (by simp [CHUNKSIZE]; omega : ((s : Nat) : Int) < (CHUNKSIZE : Int))]
      rw [if_pos (by omega : ((s : Nat) : Int) < 100)]
      rw [if_neg (by simp : ¬((none : Option Int).getD 1 = 0))]
      simp
    rw [hpost]
    exact ⟨rfl, rfl⟩

/-- C10 witness: on a fresh queryset, `qs[1]` sets both hints to 2; the
subsequent full iteration against a hint-honoring folder yields at most two
results; `qs[:2]` sets both hints to 2. -/
theorem C10_small_index_mutates_hints_witness :
    (getitemIdx Fex initQS ((1 : Nat) : Int)).2.max_items = some 2 ∧
    (iterFull Fex (getitemIdx Fex initQS ((1 : Nat) : Int)).2).yielded.length ≤ 2 ∧
    (getitemSlice Fex initQS none (some ((2 : Nat) : Int)) none).2.max_items = some 2 := by
  have hh : HonorsHints Fex := by
    refine ⟨fun q kw m h => ?_, fun ids flds => ?_⟩
    · simp only [Fex, h, Option.getD_some]
      exact List.length_take_le m _
    · simp [Fex]
  have h := C10_small_index_mutates_hints Fex initQS 1 2 rfl (by omega) (by omega)
  exact ⟨h.1.2, h.2.2.1 hh, h.2.2.2.2⟩

/-! Helper lemmas for C6: reads of live references survive fresh
allocation and writes to other references. -/

theorem read_append_lt (st : OrdStore) (os : List FieldOrder) (r : Nat)
    (h : r < st.objs.length) : OrdStore.read ⟨st.objs ++ os⟩ r = st.read r := by
  unfold OrdStore.read
  simp [List.getD_eq_getElem?_getD, List.getElem?_append_left h]

theorem read_write_ne (st : OrdStore) (r w : Nat) (o : FieldOrder) (h : r ≠ w) :
    (st.write w o).read r = st.read r := by
  unfold OrdStore.read OrdStore.write
  simp [List.getD_eq_getElem?_getD, List.getElem?_set_ne (Ne.symm h)]

theorem flipAt_length (st : OrdStore) (w : Nat) :
    (flipAt st w).objs.length = st.objs.length := by
  simp [flipAt, OrdStore.write]

theorem read_flipAt_self (st : OrdStore) (w : Nat) (h : w < st.objs.length) :
    (flipAt st w).read w = { st.read w with reverse := !(st.read w).reverse } := by
  unfold flipAt OrdStore.read OrdStore.write
  simp [List.getD_eq_getElem?_getD, List.getElem?_set_self h]

theorem read_flipAt_ne (st : OrdStore) (r w : Nat) (h : r ≠ w) :
    (flipAt st w).read r = st.read r :=
  read_write_ne st r w _ h

theorem foldl_flipAt_not_mem (ws : List Nat) (st : OrdStore) (r : Nat)
    (h : r ∉ ws) : (ws.foldl flipAt st).read r = st.read r := by
  induction ws generalizing st with
  | nil => rfl
  | cons w ws ih =>
    have h1 : r ≠ w := fun he => h (he ▸ List.mem_cons_self w ws)
    have h2 : r ∉ ws := fun hm => h (List.mem_cons_of_mem _ hm)
    rw [List.foldl_cons, ih (flipAt st w) h2, read_flipAt_ne st r w h1]

theorem foldl_flipAt_mem (ws : List Nat) (st : OrdStore) (r : Nat)
    (hnd : ws.Nodup) (hmem : r ∈ ws) (hlen : ∀ w ∈ ws, w < st.objs.length) :
    (ws.foldl flipAt st).read r =
      { st.read r with reverse := !(st.read r).reverse } := by
  induction ws generalizing st with
  | nil => cases hmem
  | cons w ws ih =>
    rw [List.foldl_cons]
    rcases List.mem_cons.mp hmem with he | hm
    · subst he
      have hnot : r ∉ ws := (List.nodup_cons.mp hnd).1
      rw [foldl_flipAt_not_mem ws _ r hnot,
        read_flipAt_self st r (hlen r (List.mem_cons_self r ws))]
    · have h1 : r ≠ w := by
        intro he; subst he; exact (List.nodup_cons.mp hnd).1 hm
      have hlen' : ∀ x ∈ ws, x < (flipAt st w).objs.length := by
        intro x hx; rw [flipAt_length]; exact hlen x (List.mem_cons_of_mem _ hx)
      rw [ih (flipAt st w) (List.nodup_cons.mp hnd).2 hm hlen',
        read_flipAt_ne st r w h1]

theorem allocList_read_map (st : OrdStore) (os : List FieldOrder) :
    ((st.allocList os).2).map (st.allocList os).1.read = os := by
  induction os generalizing st with
  | nil => rfl
  | cons o os ih =>
    simp only [OrdStore.allocList, List.length_cons, List.range'_succ, List.map_cons]
    congr 1
    · unfold OrdStore.read
      simp [List.getD_eq_getElem?_getD, List.getElem?_append_right (Nat.le_refl _)]
    · have hthis := ih ⟨st.objs ++ [o]⟩
      simp only [OrdStore.allocList] at hthis
      rw [show st.objs ++ o :: os = (st.objs ++ [o]) ++ os by simp,
        show st.objs.length + 1 = (st.objs ++ [o]).length by simp]
      exact hthis

/-- C6: `reverse()` flips the direction flags only on the returned copy's
ordering, never on the receiver's.  In the aliasing model: for every live
receiver reference, the dereferenced `FieldOrder` after `reverse()` equals
the one before, while the copy's references dereference to the receiver's
values with the flag negated.  (All other specification fields, and the
cache, are plain values the chaining operations never write to; every
chaining method assigns only to attributes of the fresh copy.) -/
theorem C6_reverse_receiver_isolated (st : OrdStore) (rs : List Nat)
    (st2 : OrdStore) (rs' : List Nat)
    (hval : ∀ r ∈ rs, r < st.objs.length)
    (h : reverseAlias st (some rs) = Except.ok (st2, rs')) :
    (∀ r ∈ rs, st2.read r = st.read r) ∧
    rs'.map st2.read =
      rs.map (fun r => { st.read r with reverse := !(st.read r).reverse }) := by
  unfold reverseAlias at h
  split at h
  · cases h
  · simp only [copyOrderAlias, OrdStore.allocList, Option.getD_some] at h
    cases h
    constructor
    · intro r hr
      have hrn : r < st.objs.length := hval r hr
      have hnot : r ∉ List.range' st.objs.length (rs.map st.read).length := by
        intro hm
        rcases List.mem_range'_1.mp hm with ⟨h1, _⟩
        omega
      rw [foldl_flipAt_not_mem _ _ _ hnot]
      exact read_append_lt st (rs.map st.read) r hrn
    · have hnd : (List.range' st.objs.length (rs.map st.read).length).Nodup :=
        List.nodup_range' _ _
      have hlt : ∀ w ∈ List.range' st.objs.length (rs.map st.read).length,
          w < (st.objs ++ rs.map st.read).length := by
        intro w hw
        rcases List.mem_range'_1.mp hw with ⟨_, h2⟩
        simp only [List.length_append]
        omega
      have hws := fun w hw =>
        foldl_flipAt_mem (List.range' st.objs.length (rs.map st.read).length)
          ⟨st.objs ++ rs.map st.read⟩ w hnd hw hlt
      rw [List.map_congr_left hws]
      have halloc := allocList_read_map st (rs.map st.read)
      simp only [OrdStore.allocList] at halloc
      exact ((List.map_map (fun o : FieldOrder => { o with reverse := !o.reverse })
          _ _).symm.trans
        (congrArg (List.map (fun o : FieldOrder => { o with reverse := !o.reverse }))
          halloc)).trans
        (List.map_map (fun o : FieldOrder => { o with reverse := !o.reverse }) _ _)

/-- C6 witness: one live order object `("x", asc)`; after `reverse()` the
receiver's reference still reads `("x", asc)` while the copy's fresh
reference reads `("x", desc)`. -/
theorem C6_reverse_receiver_isolated_witness :
    (∀ r ∈ [0], OrdStore.read ⟨[⟨"x", false⟩, ⟨"x", true⟩]⟩ r =
      OrdStore.read ⟨[⟨"x", false⟩]⟩ r) ∧
    [1].map (OrdStore.read ⟨[⟨"x", false⟩, ⟨"x", true⟩]⟩) =
      [0].map (fun r => { OrdStore.read ⟨[⟨"x", false⟩]⟩ r with
        reverse := !(OrdStore.read ⟨[⟨"x", false⟩]⟩ r).reverse }) :=
  C6_reverse_receiver_isolated ⟨[⟨"x", false⟩]⟩ [0] ⟨[⟨"x", false⟩, ⟨"x", true⟩]⟩ [1]
    (by decide) rfl

end EWS
